import Mathlib

/-!
Verification development for the Phobos rover controller
(`controllers/phobos_rover_v02_controller/phobos_rover_v02_controller.py`).

The Python controller is shallowly embedded: the mechanism command handler
(`handle_mech`, `actuate_mech_dems`, `stop`), the camera data assembly
(`handle_cam_req`), the camera reply encoder (`handle_cam_send`) and the
camera relay process loop (`cam_process`) are translated to executable Lean
definitions, and the specified properties are proved about them.

Modelling conventions:
  * Python floats that are only stored and compared (radian positions,
    angular velocities) are modelled as rationals; `float('inf')` used as
    the "unbounded rotation" position setpoint gets its own constructor.
  * Python dicts (which preserve insertion order and have unique keys) are
    modelled as ordered association lists; insertion that overwrites an
    existing key in place is `dictInsert`.
  * A Python `KeyError` (and any other uncaught exception inside a handler)
    is modelled as an `Option String` error component carried in the
    handler's result, together with the state and event list accumulated up
    to the point where the exception was raised.
-/

/-- Ordered-dict insertion: overwrite the value of an existing key in place,
otherwise append the new binding at the end.  This is exactly the update
semantics of a Python `dict` (insertion order preserved, keys unique). -/
def dictInsert {α : Type} (k : String) (v : α) : List (String × α) → List (String × α)
  | [] => [(k, v)]
  | (k', v') :: rest => if k' = k then (k, v) :: rest else (k', v') :: dictInsert k v rest

/-- The keys of an association list, in order. -/
def keysOf {α : Type} (l : List (String × α)) : List String := l.map Prod.fst

/-- Replace the element at index `i` by `f` of it; out-of-range indices leave
the list unchanged (all indices used by the controller are in range). -/
def modifyIdx {α : Type} : List α → Nat → (α → α) → List α
  | [], _, _ => []
  | a :: rest, 0, f => f a :: rest
  | a :: rest, i+1, f => a :: modifyIdx rest i f

/-- A motor position setpoint: either an absolute angle in radians or
`float('inf')`, the "unbounded rotation" mode used for velocity control. -/
inductive SetPos
  | rad (x : ℚ)
  | unbounded
deriving DecidableEq

/-- The commanded setpoints of one simulated motor (`setPosition` /
`setVelocity` registers). -/
structure Motor where
  position : SetPos
  velocity : ℚ
deriving DecidableEq

/-- Default motor used only as the `getD` fallback in statements. -/
def mdefault : Motor := ⟨SetPos.rad 0, 0⟩

/-- The commanded actuator state of the rover: the six steering motors
(`str_motors`, order `str_motor_order`) and the six drive motors
(`drv_motors`, order `drv_motor_order`). -/
structure RoverState where
  str_motors : List Motor
  drv_motors : List Motor
deriving DecidableEq

/-- `act_id_motor_group_index_map` from the source: actuator id to index
within its motor group. -/
def act_id_motor_group_index_map : List (String × Nat) :=
  [("DrvFL", 0), ("DrvML", 1), ("DrvRL", 2), ("DrvFR", 3), ("DrvMR", 4), ("DrvRR", 5),
   ("StrFL", 0), ("StrML", 1), ("StrRL", 2), ("StrFR", 3), ("StrMR", 4), ("StrRR", 5),
   ("ArmBase", 0), ("ArmShoulder", 1), ("ArmElbow", 2), ("ArmWrist", 3), ("ArmGrabber", 4)]

/-- The seventeen recognized actuator ids (the keys of
`act_id_motor_group_index_map`). -/
def knownActIds : List String := keysOf act_id_motor_group_index_map

/-- `act_id[:3]` — Python slices by characters, so we take the first three
characters of the id. -/
def actGroup (s : String) : String := String.mk (s.data.take 3)

/-- One elementary actuation performed by `actuate_mech_dems`. -/
inductive ActEvent
  | setStrPosition (idx : Nat) (x : ℚ)
  | setDrvPosition (idx : Nat) (p : SetPos)
  | setDrvVelocity (idx : Nat) (v : ℚ)
deriving DecidableEq

/-- Result of (a phase of) `actuate_mech_dems`: the rover state and the
actuation events accumulated so far, and `err = some e` if a Python
exception (`KeyError`) was raised at that point, aborting the rest. -/
structure ApplyOut where
  state : RoverState
  events : List ActEvent
  err : Option String
deriving DecidableEq

/-- A decoded mechanisms demand message.  `json.loads` yields a dict, so
each of the two keys may be absent (`none`) and the per-key maps have
unique keys. -/
structure MechDems where
  pos_rad : Option (List (String × ℚ))
  speed_rads : Option (List (String × ℚ))
deriving DecidableEq

/-- The `pos_rad` loop of `actuate_mech_dems`: for each id whose first three
characters are `"Str"`, look the id up in `act_id_motor_group_index_map`
(a missing key raises `KeyError`) and set the steering motor's position. -/
def applyPosDems : RoverState → List ActEvent → List (String × ℚ) → ApplyOut
  | st, evs, [] => ⟨st, evs, none⟩
  | st, evs, (act_id, x) :: rest =>
    if actGroup act_id = "Str" then
      match act_id_motor_group_index_map.lookup act_id with
      | some i =>
        applyPosDems
          { st with str_motors := modifyIdx st.str_motors i (fun m => { m with position := SetPos.rad x }) }
          (evs ++ [ActEvent.setStrPosition i x]) rest
      | none => ⟨st, evs, some ("KeyError: " ++ act_id)⟩
    else
      applyPosDems st evs rest

/-- The `speed_rads` loop of `actuate_mech_dems`: for each id whose first
three characters are `"Drv"`, look the id up (missing key raises
`KeyError`), set the drive motor's position to `float('inf')` and then its
velocity. -/
def applySpeedDems : RoverState → List ActEvent → List (String × ℚ) → ApplyOut
  | st, evs, [] => ⟨st, evs, none⟩
  | st, evs, (act_id, v) :: rest =>
    if actGroup act_id = "Drv" then
      match act_id_motor_group_index_map.lookup act_id with
      | some i =>
        applySpeedDems
          { st with drv_motors :=
              (modifyIdx (modifyIdx st.drv_motors i (fun m => { m with position := SetPos.unbounded }))
                i (fun m => { m with velocity := v })) }
          (evs ++ [ActEvent.setDrvPosition i SetPos.unbounded, ActEvent.setDrvVelocity i v]) rest
      | none => ⟨st, evs, some ("KeyError: " ++ act_id)⟩
    else
      applySpeedDems st evs rest

/-- `actuate_mech_dems`: run the position loop over `dems['pos_rad']`, then
the speed loop over `dems['speed_rads']`.  Accessing an absent key raises
`KeyError`; an exception in the first loop prevents the second from
running. -/
def actuate_mech_dems (st : RoverState) (dems : MechDems) : ApplyOut :=
  match dems.pos_rad with
  | none => ⟨st, [], some "KeyError: pos_rad"⟩
  | some ps =>
    let r1 := applyPosDems st [] ps
    match r1.err with
    | some _ => r1
    | none =>
      match dems.speed_rads with
      | none => ⟨r1.state, r1.events, some "KeyError: speed_rads"⟩
      | some ss => applySpeedDems r1.state r1.events ss

/-- `stop`: set every drive motor's commanded velocity to `0.0`. -/
def stop (st : RoverState) : RoverState :=
  { st with drv_motors := st.drv_motors.map (fun m => { m with velocity := 0 }) }

/-- Outcome of the non-blocking receive at the top of `handle_mech`:
`again` is `zmq.Again` (no message pending); `failure` is a `zmq.ZMQError`
or any other exception, including a JSON decode failure of the payload;
`msg d` is a successfully received and decoded demand. -/
inductive RecvOutcome
  | again
  | failure
  | msg (d : MechDems)

/-- An observable action of `handle_mech`, in program order: the reply sent
on the command rep socket, or one elementary actuation. -/
inductive MechEvent
  | sendAck (s : String)
  | act (e : ActEvent)
deriving DecidableEq

/-- Result of one `handle_mech` call: final rover state, the observable
events in order, the value returned to the main loop (`True`,
unconditionally, in the source), and `err` if an uncaught exception
escaped the handler. -/
structure MechOut where
  state : RoverState
  events : List MechEvent
  keepRunning : Bool
  err : Option String
deriving DecidableEq

/-- The exact reply text the source sends: `mech_rep.send_string('"DemsOk"')`,
i.e. the JSON encoding of the string `DemsOk`. -/
def demsOkLit : String := "\"DemsOk\""

/-- `handle_mech`: on `zmq.Again` do nothing; on a receive/decode failure
call `phobos.stop()` and send no reply; on a decoded demand, first send the
acknowledgement string, then actuate.  In every non-crashing path the
function returns `True`. -/
def handle_mech (st : RoverState) (r : RecvOutcome) : MechOut :=
  match r with
  | .again => ⟨st, [], true, none⟩
  | .failure => ⟨stop st, [], true, none⟩
  | .msg d =>
    let a := actuate_mech_dems st d
    ⟨a.state, MechEvent.sendAck demsOkLit :: a.events.map MechEvent.act, true, a.err⟩

/-- The base64 alphabet (RFC 4648), as used by Python's `base64.b64encode`. -/
def b64Alphabet : List Char :=
  "ABCDEFGHIJKLMNOPQRSTUVWXYZabcdefghijklmnopqrstuvwxyz0123456789+/".data

/-- The alphabet character for a 6-bit value. -/
def b64Char (n : Nat) : Char := b64Alphabet.getD n '='

/-- The 6-bit value of an alphabet character (`none` for a character outside
the alphabet). -/
def b64Val (c : Char) : Option Nat :=
  b64Alphabet.indexOf? c

/-- `base64.b64encode` on a byte sequence: 3-byte groups become 4 alphabet
characters; a trailing group of 1 or 2 bytes is padded with `=`. -/
def b64EncodeBytes : List Nat → List Char
  | a :: b :: c :: rest =>
    b64Char (a / 4) :: b64Char (a % 4 * 16 + b / 16) ::
      b64Char (b % 16 * 4 + c / 64) :: b64Char (c % 64) :: b64EncodeBytes rest
  | [a, b] => [b64Char (a / 4), b64Char (a % 4 * 16 + b / 16), b64Char (b % 16 * 4), '=']
  | [a] => [b64Char (a / 4), b64Char (a % 4 * 16), '=', '=']
  | [] => []

/-- Base64 decoding (the inverse transform applied by a client /
`base64.b64decode`): consume 4 characters at a time, honouring `=` padding;
`none` on any malformed input. -/
def b64DecodeChars : List Char → Option (List Nat)
  | c1 :: c2 :: c3 :: c4 :: rest =>
    match b64Val c1, b64Val c2 with
    | some v1, some v2 =>
      if c3 = '=' then
        if c4 = '=' ∧ rest = [] then some [v1 * 4 + v2 / 16] else none
      else
        match b64Val c3 with
        | some v3 =>
          if c4 = '=' then
            if rest = [] then some [v1 * 4 + v2 / 16, v2 % 16 * 16 + v3 / 4] else none
          else
            match b64Val c4 with
            | some v4 =>
              (b64DecodeChars rest).map
                (fun tail => (v1 * 4 + v2 / 16) :: (v2 % 16 * 16 + v3 / 4) :: (v3 % 4 * 64 + v4) :: tail)
            | none => none
        | none => none
    | _, _ => none
  | [] => some []
  | _ => none

/-- A camera request's `format` field: either a bare format-name string or a
JSON mapping, of which only the list of keys is ever inspected by the
encoder (`list(cam_data['format'].keys())[0]`); the mapping's values are
arbitrary JSON and are modelled opaquely as strings. -/
inductive FormatSpec
  | name (s : String)
  | mapping (entries : List (String × String))
deriving DecidableEq

/-- The format name the encoder passes to the codec: the string itself, or
the first key of the mapping form. -/
def formatNameOf : FormatSpec → String
  | .name s => s
  | .mapping entries => (entries.map Prod.fst).headD ""

/-- One camera's raw capture inside a frame bundle: the raw B,G,R,A byte
buffer from `getImage()`, the capture timestamp (ms epoch), and the image
height and width. -/
structure CamEntry where
  raw : List Nat
  timestamp : Int
  height : Nat
  width : Nat
deriving DecidableEq

/-- A value of the `cam_data` dict built by `handle_cam_req`: the `'format'`
key holds the request's format spec, every other key holds a camera
capture. -/
inductive CamVal
  | fmt (f : FormatSpec)
  | entry (e : CamEntry)
deriving DecidableEq

/-- One per-camera entry of the client reply built by `handle_cam_send`. -/
structure ResEntry where
  timestamp : Int
  format : FormatSpec
  b64_data : String
deriving DecidableEq

/-- The image codec (PIL `Image.save` for encoding; the client-side image
decoder for the round trip): `enc` takes the format name, height, width and
the flat R,G,B,A pixel data and produces the compressed bytes; `dec` is the
corresponding decoder. -/
structure ImgCodec where
  enc : String → Nat → Nat → List Nat → List Nat
  dec : String → Nat → Nat → List Nat → Option (List Nat)

/-- `np.frombuffer(raw).reshape((h, w, 4))` followed by the channel swizzle
`np_array[..., [2, 1, 0, 3]]`, flattened: pixel `p`'s output channels are
the input bytes at offsets `4*p + 2, 4*p + 1, 4*p + 0, 4*p + 3`
(B,G,R,A reordered to R,G,B,A). -/
def rgbaChunk (raw : List Nat) (p : Nat) : List Nat :=
  [raw.getD (4 * p + 2) 0, raw.getD (4 * p + 1) 0, raw.getD (4 * p) 0, raw.getD (4 * p + 3) 0]

/-- Concatenation of `f 0, f 1, ..., f (n-1)`. -/
def chunksUpTo (f : Nat → List Nat) : Nat → List Nat
  | 0 => []
  | n + 1 => chunksUpTo f n ++ f n

/-- The full reordered R,G,B,A pixel buffer of an `h × w` image. -/
def rgba_of (raw : List Nat) (h w : Nat) : List Nat :=
  chunksUpTo (rgbaChunk raw) (h * w)

/-- The body of the `handle_cam_send` loop over `cam_data.items()`: the
`'format'` key is skipped; every camera entry is reshaped, channel-swizzled,
encoded with the codec in the requested format, base64-encoded and placed
in the reply under the camera's id together with its timestamp and the
verbatim format spec. -/
def camSendEntries (codec : ImgCodec) (fmt : FormatSpec) :
    List (String × CamVal) → List (String × ResEntry)
  | [] => []
  | (k, v) :: rest =>
    if k = "format" then camSendEntries codec fmt rest
    else
      match v with
      | .fmt _ => camSendEntries codec fmt rest
      | .entry e =>
        (k, ⟨e.timestamp, fmt,
             String.mk (b64EncodeBytes
               (codec.enc (formatNameOf fmt) e.height e.width (rgba_of e.raw e.height e.width)))⟩)
          :: camSendEntries codec fmt rest

/-- `handle_cam_send`: build the reply dict from `cam_data`, using
`cam_data['format']` as the format spec for every entry, and send it (the
reply value returned here is what is serialized and sent on the camera rep
socket). -/
def handle_cam_send (codec : ImgCodec) (cam_data : List (String × CamVal)) :
    List (String × ResEntry) :=
  let fmt := match cam_data.lookup "format" with
    | some (.fmt f) => f
    | _ => FormatSpec.name ""
  camSendEntries codec fmt cam_data

/-- A decoded camera request: the list of requested camera ids and the
requested format. -/
structure CamReq where
  cameras : List String
  format : FormatSpec
deriving DecidableEq

/-- One simulated camera device: the raw framebuffer `getImage()` returns
plus `getHeight()` / `getWidth()`. -/
structure CamDev where
  image : List Nat
  height : Nat
  width : Nat
deriving DecidableEq

/-- `self.cameras` as set up by `init_eqpt`: the left/right navigation
cameras and the left depth camera, keyed by their ids. -/
def init_cameras (l r d : CamDev) : List (String × CamDev) :=
  [("LeftNav", l), ("RightNav", r), ("LeftDepth", d)]

/-- The camera loop of `handle_cam_req`: for each requested camera id, look
the camera up (`self.cameras[cam_id]`, a missing id raises `KeyError`,
modelled as `none`) and insert its raw capture into `cam_data`. -/
def camReqInsert (cams : List (String × CamDev)) (now : Int) :
    List (String × CamVal) → List String → Option (List (String × CamVal))
  | acc, [] => some acc
  | acc, cid :: rest =>
    match cams.lookup cid with
    | none => none
    | some dev =>
      camReqInsert cams now
        (dictInsert cid (CamVal.entry ⟨dev.image, now, dev.height, dev.width⟩) acc) rest

/-- `handle_cam_req` (data-assembly part): build the `cam_data` dict sent
back to the camera process — first `cam_data['format'] = cam_req['format']`,
then one entry per requested camera.  `now` is the capture timestamp; the
per-camera timestamps are all taken within one handler call and are
modelled by a single value. -/
def handle_cam_req (cams : List (String × CamDev)) (now : Int) (req : CamReq) :
    Option (List (String × CamVal)) :=
  camReqInsert cams now (dictInsert "format" (CamVal.fmt req.format) []) req.cameras

/-- A message the camera process can find on its end of the pipe: the
`'STOP'` sentinel from the main process, or a frame-bundle dict to encode
and send. -/
inductive PipeMsg
  | stopMsg
  | frames (cam_data : List (String × CamVal))

/-- An observable action of the camera relay process loop, in program
order: an attempted non-blocking receive on the client rep socket
(`cam_rep.recv_string(flags=zmq.NOBLOCK)`), the forwarding of a received
client request over the pipe (`cam_pipe.send(cam_req)`), or the sending of
an encoded reply to the client (`handle_cam_send`). -/
inductive RelayEvent
  | recvAttempt
  | forward
  | reply
deriving DecidableEq

/-- One run of the `cam_process` main loop, as the sequence of observable
events it performs.  `n` bounds the number of loop iterations; `handling`
is the `handling_req` flag; `ps` gives, per iteration, what `cam_pipe.poll`
/ `cam_pipe.recv` yields (`none` = nothing pending); `cs` gives, per
*attempted* client receive, what the non-blocking receive yields (`none`
covers `zmq.Again`, a socket error or a JSON decode failure, all of which
set `cam_req = None`).  A client message is consumed only when a receive
is actually attempted, so an unattempted request stays pending. -/
def cam_process_run : Nat → Bool → List (Option PipeMsg) → List (Option CamReq) → List RelayEvent
  | 0, _, _, _ => []
  | n + 1, handling, ps, cs =>
    match ps.headD none with
    | some PipeMsg.stopMsg => []
    | some (PipeMsg.frames _) =>
      RelayEvent.reply ::
        RelayEvent.recvAttempt ::
          (match cs.headD none with
           | some _ => RelayEvent.forward :: cam_process_run n true ps.tail cs.tail
           | none => cam_process_run n false ps.tail cs.tail)
    | none =>
      if handling then cam_process_run n true ps.tail cs
      else
        RelayEvent.recvAttempt ::
          (match cs.headD none with
           | some _ => RelayEvent.forward :: cam_process_run n true ps.tail cs.tail
           | none => cam_process_run n false ps.tail cs.tail)

/-- The one-request-in-flight discipline over a relay event trace, checked
with an in-flight flag: a client receive may only be attempted (and hence a
request only forwarded) while no forwarded request is outstanding; a
forward raises the flag, the client reply clears it. -/
def inFlightLegal : Bool → List RelayEvent → Bool
  | _, [] => true
  | inflight, e :: rest =>
    match e with
    | RelayEvent.recvAttempt => !inflight && inFlightLegal inflight rest
    | RelayEvent.forward => !inflight && inFlightLegal true rest
    | RelayEvent.reply => inFlightLegal false rest

theorem modifyIdx_length {α : Type} (l : List α) (i : Nat) (f : α → α) :
    (modifyIdx l i f).length = l.length := by
  induction l generalizing i with
  | nil => rfl
  | cons a rest ih =>
    cases i with
    | zero => rfl
    | succ j => simpa [modifyIdx] using ih j

theorem modifyIdx_getD_ne {α : Type} (l : List α) (i : Nat) (f : α → α) (j : Nat) (d : α)
    (h : j ≠ i) : (modifyIdx l i f).getD j d = l.getD j d := by
  induction l generalizing i j with
  | nil => rfl
  | cons a rest ih =>
    cases i with
    | zero =>
      cases j with
      | zero => exact absurd rfl h
      | succ j' => rfl
    | succ i' =>
      cases j with
      | zero => rfl
      | succ j' => simpa [modifyIdx] using ih i' j' (by omega)

theorem modifyIdx_getD_eq {α : Type} (l : List α) (i : Nat) (f : α → α) (d : α)
    (h : i < l.length) : (modifyIdx l i f).getD i d = f (l.getD i d) := by
  induction l generalizing i with
  | nil => simp at h
  | cons a rest ih =>
    cases i with
    | zero => rfl
    | succ i' => simpa [modifyIdx] using ih i' (by simpa using h)

/-- A concrete rover state used to instantiate the theorems below: all six
steering motors at the default setpoints, all six drive motors in absolute
position mode with nonzero commanded velocity. -/
def st0 : RoverState :=
  ⟨List.replicate 6 mdefault, List.replicate 6 ⟨SetPos.rad 1, 3⟩⟩

/-- C9: `stop()` sets every drive motor's commanded velocity setpoint to
`0.0` and changes nothing else — the steering motors are untouched and
every drive motor keeps its position setpoint (rotation mode), for every
prior actuator state. -/
theorem stop_zeroes_only_drive_velocities (st : RoverState) :
    (stop st).str_motors = st.str_motors ∧
    (stop st).drv_motors.length = st.drv_motors.length ∧
    ∀ i, i < st.drv_motors.length →
      ((stop st).drv_motors.getD i mdefault).velocity = 0 ∧
      ((stop st).drv_motors.getD i mdefault).position = (st.drv_motors.getD i mdefault).position := by
  refine ⟨rfl, by simp [stop], ?_⟩
  intro i hi
  have hlen : i < (st.drv_motors.map (fun m => { m with velocity := 0 })).length := by
    simpa using hi
  constructor
  · rw [stop]
    rw [List.getD_eq_getElem _ _ hlen]
    simp
  · rw [stop]
    rw [List.getD_eq_getElem _ _ hlen, List.getD_eq_getElem _ _ hi]
    simp

theorem stop_zeroes_only_drive_velocities_witness :
    (stop st0).str_motors = st0.str_motors ∧
    (stop st0).drv_motors.length = st0.drv_motors.length ∧
    ((stop st0).drv_motors.getD 2 mdefault).velocity = 0 ∧
    ((stop st0).drv_motors.getD 2 mdefault).position = (st0.drv_motors.getD 2 mdefault).position := by
  obtain ⟨h1, h2, h3⟩ := stop_zeroes_only_drive_velocities st0
  exact ⟨h1, h2, (h3 2 (by decide)).1, (h3 2 (by decide)).2⟩

/-- C1 (code bug): on a transport error or a payload that fails to decode,
`handle_mech` sends no reply and commands every drive motor's velocity to
zero, but it returns `True`, so the main loop is NOT signalled to
terminate — the claimed stop indication never happens (and the value is
overwritten by `step(phobos)` in `run` anyway). -/
theorem handle_mech_failure_no_termination (st : RoverState) :
    (handle_mech st RecvOutcome.failure).events = [] ∧
    (handle_mech st RecvOutcome.failure).state =
      { st with drv_motors := st.drv_motors.map (fun m => { m with velocity := 0 }) } ∧
    (handle_mech st RecvOutcome.failure).keepRunning = true :=
  ⟨rfl, rfl, rfl⟩

/-- C2: on every successfully received and decoded command message, the
acknowledgement `'"DemsOk"'` is the first observable event of
`handle_mech` — any actuation event sits at a strictly later position. -/
theorem ack_sent_before_actuation (st : RoverState) (d : MechDems) (k : Nat) (e : ActEvent)
    (h : (handle_mech st (RecvOutcome.msg d)).events.getD k (MechEvent.sendAck "") =
          MechEvent.act e) :
    0 < k ∧
    (handle_mech st (RecvOutcome.msg d)).events.getD 0 (MechEvent.sendAck "") =
      MechEvent.sendAck demsOkLit := by
  refine ⟨?_, rfl⟩
  cases k with
  | zero => simp [handle_mech] at h
  | succ k' => omega

theorem ack_sent_before_actuation_witness :
    0 < 1 ∧
    (handle_mech st0 (RecvOutcome.msg ⟨some [], some [("DrvFL", 2)]⟩)).events.getD 0
        (MechEvent.sendAck "") = MechEvent.sendAck demsOkLit :=
  ack_sent_before_actuation st0 ⟨some [], some [("DrvFL", 2)]⟩ 1
    (ActEvent.setDrvPosition 0 SetPos.unbounded) (by decide)

/-- C6 counterexample: a decoded command message without the `'pos_rad'`
key is acknowledged but NOT processed without error — `actuate_mech_dems`
raises a `KeyError` on `dems['pos_rad']` and the speed demand that is
present is never applied. -/
theorem absent_pos_rad_key_raises :
    (handle_mech st0 (RecvOutcome.msg ⟨none, some [("DrvFL", 2)]⟩)).err =
      some "KeyError: pos_rad" ∧
    (handle_mech st0 (RecvOutcome.msg ⟨none, some [("DrvFL", 2)]⟩)).events =
      [MechEvent.sendAck demsOkLit] ∧
    (handle_mech st0 (RecvOutcome.msg ⟨none, some [("DrvFL", 2)]⟩)).state = st0 := by
  refine ⟨rfl, rfl, rfl⟩

/-- C6 as amended: a command message in which both keys are present and map
to empty mappings is processed without error (acknowledged, no actuation,
no exception).  A message lacking `'pos_rad'` is acknowledged and then
fails immediately inside `actuate_mech_dems` with `KeyError: pos_rad`,
applying nothing.  A message lacking `'speed_rads'` is acknowledged and the
position demands that are present ARE first applied — the `pos_rad` loop
runs with exactly its usual effect (state changes, events, or its own
error) — and only afterwards does accessing the absent key fail: the
result's error is the position loop's own error if it raised one, and
`KeyError: speed_rads` otherwise. -/
theorem empty_maps_ok_absent_keys_raise (st : RoverState) (ps ss : List (String × ℚ)) :
    handle_mech st (RecvOutcome.msg ⟨some [], some []⟩) =
      ⟨st, [MechEvent.sendAck demsOkLit], true, none⟩ ∧
    handle_mech st (RecvOutcome.msg ⟨none, some ss⟩) =
      ⟨st, [MechEvent.sendAck demsOkLit], true, some "KeyError: pos_rad"⟩ ∧
    handle_mech st (RecvOutcome.msg ⟨some ps, none⟩) =
      ⟨(applyPosDems st [] ps).state,
       MechEvent.sendAck demsOkLit :: (applyPosDems st [] ps).events.map MechEvent.act,
       true,
       some (((applyPosDems st [] ps).err).getD "KeyError: speed_rads")⟩ := by
  refine ⟨rfl, rfl, ?_⟩
  simp only [handle_mech, actuate_mech_dems]
  cases h : (applyPosDems st [] ps).err with
  | none => simp [h]
  | some e => simp [h]

/-- C5 counterexample: an actuator id outside the seventeen known ids whose
first three characters nonetheless match a known class is NOT silently
ignored — the index-map lookup raises a `KeyError` that fails the whole
`actuate_mech_dems` call, for both an unrecognized `Drv...` id and an
unrecognized `Str...` id. -/
theorem unknown_class_prefixed_id_raises :
    (actuate_mech_dems st0 ⟨some [], some [("DrvXX", 1)]⟩).err = some "KeyError: DrvXX" ∧
    (actuate_mech_dems st0 ⟨some [("StrXX", 1)], some []⟩).err = some "KeyError: StrXX" :=
  ⟨rfl, rfl⟩

theorem applyPosDems_filter (ps : List (String × ℚ)) (st : RoverState) (evs : List ActEvent) :
    applyPosDems st evs (ps.filter (fun p => actGroup p.1 == "Str")) =
      applyPosDems st evs ps := by
  induction ps generalizing st evs with
  | nil => rfl
  | cons p rest ih =>
    obtain ⟨act_id, x⟩ := p
    by_cases hg : actGroup act_id = "Str"
    · have hb : (actGroup act_id == "Str") = true := by simpa using hg
      simp only [List.filter_cons, hb, if_true, applyPosDems, if_pos hg]
      cases act_id_motor_group_index_map.lookup act_id with
      | none => rfl
      | some i => exact ih _ _
    · have hb : (actGroup act_id == "Str") = false := by simpa using hg
      simp only [List.filter_cons, hb, if_false, applyPosDems, if_neg hg]
      exact ih _ _

theorem applySpeedDems_filter (ss : List (String × ℚ)) (st : RoverState) (evs : List ActEvent) :
    applySpeedDems st evs (ss.filter (fun p => actGroup p.1 == "Drv")) =
      applySpeedDems st evs ss := by
  induction ss generalizing st evs with
  | nil => rfl
  | cons p rest ih =>
    obtain ⟨act_id, v⟩ := p
    by_cases hg : actGroup act_id = "Drv"
    · have hb : (actGroup act_id == "Drv") = true := by simpa using hg
      simp only [List.filter_cons, hb, if_true, applySpeedDems, if_pos hg]
      cases act_id_motor_group_index_map.lookup act_id with
      | none => rfl
      | some i => exact ih _ _
    · have hb : (actGroup act_id == "Drv") = false := by simpa using hg
      simp only [List.filter_cons, hb, if_false, applySpeedDems, if_neg hg]
      exact ih _ _

theorem applyPosDems_err_none (ps : List (String × ℚ)) (st : RoverState) (evs : List ActEvent)
    (h : ∀ p ∈ ps, actGroup p.1 = "Str" →
      (act_id_motor_group_index_map.lookup p.1).isSome) :
    (applyPosDems st evs ps).err = none := by
  induction ps generalizing st evs with
  | nil => rfl
  | cons p rest ih =>
    obtain ⟨act_id, x⟩ := p
    simp only [applyPosDems]
    by_cases hg : actGroup act_id = "Str"
    · rw [if_pos hg]
      have := h (act_id, x) (by simp) hg
      cases hl : act_id_motor_group_index_map.lookup act_id with
      | none => rw [hl] at this; simp at this
      | some i =>
        exact ih _ _ (fun q hq => h q (List.mem_cons_of_mem _ hq))
    · rw [if_neg hg]
      exact ih _ _ (fun q hq => h q (List.mem_cons_of_mem _ hq))

theorem applySpeedDems_err_none (ss : List (String × ℚ)) (st : RoverState) (evs : List ActEvent)
    (h : ∀ p ∈ ss, actGroup p.1 = "Drv" →
      (act_id_motor_group_index_map.lookup p.1).isSome) :
    (applySpeedDems st evs ss).err = none := by
  induction ss generalizing st evs with
  | nil => rfl
  | cons p rest ih =>
    obtain ⟨act_id, v⟩ := p
    simp only [applySpeedDems]
    by_cases hg : actGroup act_id = "Drv"
    · rw [if_pos hg]
      have := h (act_id, v) (by simp) hg
      cases hl : act_id_motor_group_index_map.lookup act_id with
      | none => rw [hl] at this; simp at this
      | some i =>
        exact ih _ _ (fun q hq => h q (List.mem_cons_of_mem _ hq))
    · rw [if_neg hg]
      exact ih _ _ (fun q hq => h q (List.mem_cons_of_mem _ hq))

/-- C5 as amended: an actuator id whose three-character class prefix is not
an actuated class (`Str` for `pos_rad`, `Drv` for `speed_rads`) is silently
ignored by `actuate_mech_dems` — the demand behaves exactly as if such ids
were filtered out, with no actuation, no error and no failure; but when
every class-prefixed id is one of the known ids the whole apply call
succeeds, and (per the counterexample) a `Str`/`Drv`-prefixed id outside
the known set raises a `KeyError` that fails the whole call. -/
theorem unmatched_prefix_ids_ignored (st : RoverState) (ps ss : List (String × ℚ)) :
    actuate_mech_dems st ⟨some ps, some ss⟩ =
      actuate_mech_dems st
        ⟨some (ps.filter (fun p => actGroup p.1 == "Str")),
         some (ss.filter (fun p => actGroup p.1 == "Drv"))⟩ ∧
    ((∀ p ∈ ps, actGroup p.1 = "Str" → (act_id_motor_group_index_map.lookup p.1).isSome) →
     (∀ p ∈ ss, actGroup p.1 = "Drv" → (act_id_motor_group_index_map.lookup p.1).isSome) →
     (actuate_mech_dems st ⟨some ps, some ss⟩).err = none) := by
  constructor
  · simp only [actuate_mech_dems]
    rw [applyPosDems_filter]
    cases h1 : (applyPosDems st [] ps).err with
    | some e => rfl
    | none => rw [applySpeedDems_filter]
  · intro hp hs
    simp only [actuate_mech_dems]
    rw [applyPosDems_err_none ps st [] hp]
    exact applySpeedDems_err_none ss _ _ hs

theorem unmatched_prefix_ids_ignored_witness :
    (actuate_mech_dems st0 ⟨some [("ArmBase", 1), ("Foo", 2)], some [("Bar", 3)]⟩ =
      actuate_mech_dems st0
        ⟨some ([("ArmBase", 1), ("Foo", 2)].filter (fun p => actGroup p.1 == "Str")),
         some ([("Bar", 3)].filter (fun p => actGroup p.1 == "Drv"))⟩) ∧
    (actuate_mech_dems st0 ⟨some [("ArmBase", 1), ("Foo", 2)], some [("Bar", 3)]⟩).err = none :=
  ⟨(unmatched_prefix_ids_ignored st0 [("ArmBase", 1), ("Foo", 2)] [("Bar", 3)]).1,
   (unmatched_prefix_ids_ignored st0 [("ArmBase", 1), ("Foo", 2)] [("Bar", 3)]).2
     (by decide) (by decide)⟩

theorem known_lookup_isSome :
    ∀ a ∈ knownActIds, (act_id_motor_group_index_map.lookup a).isSome := by decide

theorem str_lookup_lt6 :
    ∀ a ∈ knownActIds, actGroup a = "Str" →
      (act_id_motor_group_index_map.lookup a).getD 6 < 6 := by decide

theorem drv_lookup_lt6 :
    ∀ a ∈ knownActIds, actGroup a = "Drv" →
      (act_id_motor_group_index_map.lookup a).getD 6 < 6 := by decide

theorem str_lookup_inj :
    ∀ a ∈ knownActIds, ∀ b ∈ knownActIds, actGroup a = "Str" → actGroup b = "Str" →
      act_id_motor_group_index_map.lookup a = act_id_motor_group_index_map.lookup b →
      a = b := by decide

theorem drv_lookup_inj :
    ∀ a ∈ knownActIds, ∀ b ∈ knownActIds, actGroup a = "Drv" → actGroup b = "Drv" →
      act_id_motor_group_index_map.lookup a = act_id_motor_group_index_map.lookup b →
      a = b := by decide

theorem applyPosDems_drv (ps : List (String × ℚ)) (st : RoverState) (evs : List ActEvent) :
    (applyPosDems st evs ps).state.drv_motors = st.drv_motors := by
  induction ps generalizing st evs with
  | nil => rfl
  | cons p rest ih =>
    obtain ⟨act_id, x⟩ := p
    by_cases hg : actGroup act_id = "Str"
    · simp only [applyPosDems, if_pos hg]
      cases act_id_motor_group_index_map.lookup act_id with
      | none => rfl
      | some i => exact ih _ _
    · simp only [applyPosDems, if_neg hg]
      exact ih _ _

theorem applyPosDems_str_length (ps : List (String × ℚ)) (st : RoverState)
    (evs : List ActEvent) :
    (applyPosDems st evs ps).state.str_motors.length = st.str_motors.length := by
  induction ps generalizing st evs with
  | nil => rfl
  | cons p rest ih =>
    obtain ⟨act_id, x⟩ := p
    by_cases hg : actGroup act_id = "Str"
    · simp only [applyPosDems, if_pos hg]
      cases act_id_motor_group_index_map.lookup act_id with
      | none => rfl
      | some i => exact (ih _ _).trans (modifyIdx_length _ _ _)
    · simp only [applyPosDems, if_neg hg]
      exact ih _ _


theorem applyPosDems_untouched : ∀ (ps : List (String × ℚ)) (st : RoverState)
    (evs : List ActEvent) (i : Nat),
    (∀ p ∈ ps, actGroup p.1 = "Str" →
      act_id_motor_group_index_map.lookup p.1 ≠ some i) →
    (applyPosDems st evs ps).state.str_motors.getD i mdefault =
      st.str_motors.getD i mdefault := by
  intro ps
  induction ps with
  | nil => intro st evs i h; rfl
  | cons p rest ih =>
    intro st evs i h
    obtain ⟨act_id, x⟩ := p
    by_cases hg : actGroup act_id = "Str"
    · simp only [applyPosDems, if_pos hg]
      cases hl : act_id_motor_group_index_map.lookup act_id with
      | none => rfl
      | some j =>
        have hji : j ≠ i := by
          intro hji
          exact h (act_id, x) (by simp) hg (by rw [hl, hji])
        rw [ih _ _ _ (fun q hq => h q (List.mem_cons_of_mem _ hq))]
        exact modifyIdx_getD_ne _ _ _ _ _ (by omega)
    · simp only [applyPosDems, if_neg hg]
      exact ih _ _ _ (fun q hq => h q (List.mem_cons_of_mem _ hq))

theorem applyPosDems_targeted : ∀ (ps : List (String × ℚ)) (st : RoverState)
    (evs : List ActEvent) (act_id : String) (x : ℚ) (i : Nat),
    (act_id, x) ∈ ps → actGroup act_id = "Str" →
    act_id_motor_group_index_map.lookup act_id = some i →
    (∀ p ∈ ps, p.1 ∈ knownActIds) → (ps.map Prod.fst).Nodup →
    st.str_motors.length = 6 →
    ((applyPosDems st evs ps).state.str_motors.getD i mdefault).position = SetPos.rad x := by
  intro ps
  induction ps with
  | nil => intro st evs act_id x i hmem _ _ _ _ _; simp at hmem
  | cons p rest ih =>
    intro st evs act_id x i hmem hg hi hknown hnd hlen
    obtain ⟨b_id, y⟩ := p
    have hknr : ∀ p ∈ rest, p.1 ∈ knownActIds :=
      fun q hq => hknown q (List.mem_cons_of_mem _ hq)
    have hnd' : (b_id :: rest.map Prod.fst).Nodup := by simpa using hnd
    have hndr : (rest.map Prod.fst).Nodup := (List.nodup_cons.mp hnd').2
    have hbni : b_id ∉ rest.map Prod.fst := (List.nodup_cons.mp hnd').1
    rcases List.mem_cons.mp hmem with hhd | htl
    · cases hhd
      have hka : act_id ∈ knownActIds := hknown (act_id, x) (by simp)
      have hilt : i < 6 := by
        have := str_lookup_lt6 act_id hka hg
        rw [hi] at this
        simpa using this
      simp only [applyPosDems, if_pos hg, hi]
      rw [applyPosDems_untouched rest _ _ i ?h]
      case h =>
        intro q hq hq_str hq_look
        have hkq : q.1 ∈ knownActIds := hknr q hq
        have : q.1 = act_id := str_lookup_inj q.1 hkq act_id hka hq_str hg (by rw [hq_look, hi])
        exact hbni (this ▸ List.mem_map_of_mem Prod.fst hq)
      rw [modifyIdx_getD_eq _ _ _ _ (by omega)]
    · by_cases hg' : actGroup b_id = "Str"
      · have hkb : b_id ∈ knownActIds := hknown (b_id, y) (by simp)
        have := known_lookup_isSome b_id hkb
        cases hl : act_id_motor_group_index_map.lookup b_id with
        | none => rw [hl] at this; simp at this
        | some j =>
          simp only [applyPosDems, if_pos hg', hl]
          exact ih _ _ _ _ _ htl hg hi hknr hndr
            ((modifyIdx_length _ _ _).trans hlen)
      · simp only [applyPosDems, if_neg hg']
        exact ih _ _ _ _ _ htl hg hi hknr hndr hlen

theorem applySpeedDems_str (ss : List (String × ℚ)) (st : RoverState) (evs : List ActEvent) :
    (applySpeedDems st evs ss).state.str_motors = st.str_motors := by
  induction ss generalizing st evs with
  | nil => rfl
  | cons p rest ih =>
    obtain ⟨act_id, v⟩ := p
    by_cases hg : actGroup act_id = "Drv"
    · simp only [applySpeedDems, if_pos hg]
      cases act_id_motor_group_index_map.lookup act_id with
      | none => rfl
      | some i => exact ih _ _
    · simp only [applySpeedDems, if_neg hg]
      exact ih _ _

theorem applySpeedDems_drv_length (ss : List (String × ℚ)) (st : RoverState)
    (evs : List ActEvent) :
    (applySpeedDems st evs ss).state.drv_motors.length = st.drv_motors.length := by
  induction ss generalizing st evs with
  | nil => rfl
  | cons p rest ih =>
    obtain ⟨act_id, v⟩ := p
    by_cases hg : actGroup act_id = "Drv"
    · simp only [applySpeedDems, if_pos hg]
      cases act_id_motor_group_index_map.lookup act_id with
      | none => rfl
      | some i =>
        exact (ih _ _).trans ((modifyIdx_length _ _ _).trans (modifyIdx_length _ _ _))
    · simp only [applySpeedDems, if_neg hg]
      exact ih _ _

theorem applySpeedDems_untouched : ∀ (ss : List (String × ℚ)) (st : RoverState)
    (evs : List ActEvent) (i : Nat),
    (∀ p ∈ ss, actGroup p.1 = "Drv" →
      act_id_motor_group_index_map.lookup p.1 ≠ some i) →
    (applySpeedDems st evs ss).state.drv_motors.getD i mdefault =
      st.drv_motors.getD i mdefault := by
  intro ss
  induction ss with
  | nil => intro st evs i h; rfl
  | cons p rest ih =>
    intro st evs i h
    obtain ⟨act_id, v⟩ := p
    by_cases hg : actGroup act_id = "Drv"
    · simp only [applySpeedDems, if_pos hg]
      cases hl : act_id_motor_group_index_map.lookup act_id with
      | none => rfl
      | some j =>
        have hji : j ≠ i := by
          intro hji
          exact h (act_id, v) (by simp) hg (by rw [hl, hji])
        rw [ih _ _ _ (fun q hq => h q (List.mem_cons_of_mem _ hq))]
        rw [modifyIdx_getD_ne _ _ _ _ _ (by omega)]
        exact modifyIdx_getD_ne _ _ _ _ _ (by omega)
    · simp only [applySpeedDems, if_neg hg]
      exact ih _ _ _ (fun q hq => h q (List.mem_cons_of_mem _ hq))

theorem applySpeedDems_targeted : ∀ (ss : List (String × ℚ)) (st : RoverState)
    (evs : List ActEvent) (act_id : String) (v : ℚ) (i : Nat),
    (act_id, v) ∈ ss → actGroup act_id = "Drv" →
    act_id_motor_group_index_map.lookup act_id = some i →
    (∀ p ∈ ss, p.1 ∈ knownActIds) → (ss.map Prod.fst).Nodup →
    st.drv_motors.length = 6 →
    ((applySpeedDems st evs ss).state.drv_motors.getD i mdefault).position =
        SetPos.unbounded ∧
    ((applySpeedDems st evs ss).state.drv_motors.getD i mdefault).velocity = v := by
  intro ss
  induction ss with
  | nil => intro st evs act_id v i hmem _ _ _ _ _; simp at hmem
  | cons p rest ih =>
    intro st evs act_id v i hmem hg hi hknown hnd hlen
    obtain ⟨b_id, y⟩ := p
    have hknr : ∀ p ∈ rest, p.1 ∈ knownActIds :=
      fun q hq => hknown q (List.mem_cons_of_mem _ hq)
    have hnd' : (b_id :: rest.map Prod.fst).Nodup := by simpa using hnd
    have hndr : (rest.map Prod.fst).Nodup := (List.nodup_cons.mp hnd').2
    have hbni : b_id ∉ rest.map Prod.fst := (List.nodup_cons.mp hnd').1
    rcases List.mem_cons.mp hmem with hhd | htl
    · cases hhd
      have hka : act_id ∈ knownActIds := hknown (act_id, v) (by simp)
      have hilt : i < 6 := by
        have := drv_lookup_lt6 act_id hka hg
        rw [hi] at this
        simpa using this
      simp only [applySpeedDems, if_pos hg, hi]
      rw [applySpeedDems_untouched rest _ _ i ?h]
      case h =>
        intro q hq hq_drv hq_look
        have hkq : q.1 ∈ knownActIds := hknr q hq
        have : q.1 = act_id := drv_lookup_inj q.1 hkq act_id hka hq_drv hg (by rw [hq_look, hi])
        exact hbni (this ▸ List.mem_map_of_mem Prod.fst hq)
      rw [modifyIdx_getD_eq _ _ _ _ (by rw [modifyIdx_length]; omega)]
      rw [modifyIdx_getD_eq _ _ _ _ (by omega)]
      exact ⟨rfl, rfl⟩
    · by_cases hg' : actGroup b_id = "Drv"
      · have hkb : b_id ∈ knownActIds := hknown (b_id, y) (by simp)
        have := known_lookup_isSome b_id hkb
        cases hl : act_id_motor_group_index_map.lookup b_id with
        | none => rw [hl] at this; simp at this
        | some j =>
          simp only [applySpeedDems, if_pos hg', hl]
          exact ih _ _ _ _ _ htl hg hi hknr hndr
            ((modifyIdx_length _ _ _).trans ((modifyIdx_length _ _ _).trans hlen))
      · simp only [applySpeedDems, if_neg hg']
        exact ih _ _ _ _ _ htl hg hi hknr hndr hlen

/-- C3: applying an `ActuatorDemand` containing only known actuator ids
succeeds, sets each steering-class id named in `pos_rad` to its requested
absolute position, sets each drive-class id named in `speed_rads` to
unbounded rotation (`float('inf')` position) with the requested angular
velocity, and leaves every motor not so named untouched — in particular,
ids of other classes appearing in either map are no-ops. -/
theorem actuate_known_demands (st : RoverState) (ps ss : List (String × ℚ))
    (hslen : st.str_motors.length = 6) (hdlen : st.drv_motors.length = 6)
    (hkp : ∀ p ∈ ps, p.1 ∈ knownActIds) (hks : ∀ p ∈ ss, p.1 ∈ knownActIds)
    (hnp : (ps.map Prod.fst).Nodup) (hns : (ss.map Prod.fst).Nodup) :
    (actuate_mech_dems st ⟨some ps, some ss⟩).err = none ∧
    (∀ p ∈ ps, actGroup p.1 = "Str" →
      ∀ i, act_id_motor_group_index_map.lookup p.1 = some i →
        ((actuate_mech_dems st ⟨some ps, some ss⟩).state.str_motors.getD i
          mdefault).position = SetPos.rad p.2) ∧
    (∀ p ∈ ss, actGroup p.1 = "Drv" →
      ∀ i, act_id_motor_group_index_map.lookup p.1 = some i →
        ((actuate_mech_dems st ⟨some ps, some ss⟩).state.drv_motors.getD i
            mdefault).position = SetPos.unbounded ∧
        ((actuate_mech_dems st ⟨some ps, some ss⟩).state.drv_motors.getD i
            mdefault).velocity = p.2) ∧
    (∀ i, (∀ p ∈ ps, actGroup p.1 = "Str" →
        act_id_motor_group_index_map.lookup p.1 ≠ some i) →
      (actuate_mech_dems st ⟨some ps, some ss⟩).state.str_motors.getD i mdefault =
        st.str_motors.getD i mdefault) ∧
    (∀ i, (∀ p ∈ ss, actGroup p.1 = "Drv" →
        act_id_motor_group_index_map.lookup p.1 ≠ some i) →
      (actuate_mech_dems st ⟨some ps, some ss⟩).state.drv_motors.getD i mdefault =
        st.drv_motors.getD i mdefault) := by
  have hposerr : (applyPosDems st [] ps).err = none :=
    applyPosDems_err_none ps st [] (fun p hp _ => known_lookup_isSome p.1 (hkp p hp))
  have hout : actuate_mech_dems st ⟨some ps, some ss⟩ =
      applySpeedDems (applyPosDems st [] ps).state (applyPosDems st [] ps).events ss := by
    simp only [actuate_mech_dems]
    rw [hposerr]
  refine ⟨?_, ?_, ?_, ?_, ?_⟩
  · rw [hout]
    exact applySpeedDems_err_none ss _ _ (fun p hp _ => known_lookup_isSome p.1 (hks p hp))
  · intro p hp hstr i hi
    rw [hout, applySpeedDems_str]
    exact applyPosDems_targeted ps st [] p.1 p.2 i (by simpa using hp) hstr hi hkp hnp hslen
  · intro p hp hdrv i hi
    rw [hout]
    have hlen6 : (applyPosDems st [] ps).state.drv_motors.length = 6 := by
      rw [applyPosDems_drv]; exact hdlen
    exact applySpeedDems_targeted ss _ _ p.1 p.2 i (by simpa using hp) hdrv hi hks hns hlen6
  · intro i hnone
    rw [hout, applySpeedDems_str]
    exact applyPosDems_untouched ps st [] i hnone
  · intro i hnone
    rw [hout, applySpeedDems_untouched ss _ _ i hnone, applyPosDems_drv]

theorem actuate_known_demands_witness :
    (actuate_mech_dems st0 ⟨some [("StrFL", 1/2), ("ArmBase", 5)],
        some [("DrvRR", 7)]⟩).err = none ∧
    ((actuate_mech_dems st0 ⟨some [("StrFL", 1/2), ("ArmBase", 5)],
        some [("DrvRR", 7)]⟩).state.str_motors.getD 0 mdefault).position = SetPos.rad (1/2) ∧
    ((actuate_mech_dems st0 ⟨some [("StrFL", 1/2), ("ArmBase", 5)],
        some [("DrvRR", 7)]⟩).state.drv_motors.getD 5 mdefault).position =
      SetPos.unbounded ∧
    ((actuate_mech_dems st0 ⟨some [("StrFL", 1/2), ("ArmBase", 5)],
        some [("DrvRR", 7)]⟩).state.drv_motors.getD 5 mdefault).velocity = 7 ∧
    (actuate_mech_dems st0 ⟨some [("StrFL", 1/2), ("ArmBase", 5)],
        some [("DrvRR", 7)]⟩).state.str_motors.getD 3 mdefault =
      st0.str_motors.getD 3 mdefault := by
  obtain ⟨h1, h2, h3, h4, h5⟩ :=
    actuate_known_demands st0 [("StrFL", 1/2), ("ArmBase", 5)] [("DrvRR", 7)]
      (by decide) (by decide) (by decide) (by decide) (by decide) (by decide)
  refine ⟨h1, ?_, ?_, ?_, ?_⟩
  · exact h2 ("StrFL", 1/2) (by simp) (by decide) 0 (by decide)
  · exact (h3 ("DrvRR", 7) (by simp) (by decide) 5 (by decide)).1
  · exact (h3 ("DrvRR", 7) (by simp) (by decide) 5 (by decide)).2
  · exact h4 3 (by decide)

/-- C4: in every run of the `cam_process` loop, from any iteration count,
pipe schedule and client schedule, the event trace obeys the
one-request-in-flight discipline: a client-socket receive is only ever
attempted (and a request only forwarded) while no forwarded request is
outstanding, so a second client request can only be received after the
reply to the first has been sent. -/
theorem cam_process_single_in_flight (n : Nat) (h : Bool) (ps : List (Option PipeMsg))
    (cs : List (Option CamReq)) :
    inFlightLegal h (cam_process_run n h ps cs) = true := by
  induction n generalizing h ps cs with
  | zero => rfl
  | succ n ih =>
    simp only [cam_process_run]
    cases hp : ps.headD none with
    | none =>
      cases h with
      | true => simpa [inFlightLegal] using ih true ps.tail cs
      | false =>
        cases hc : cs.headD none with
        | none => simpa [inFlightLegal] using ih false ps.tail cs.tail
        | some req => simpa [inFlightLegal] using ih true ps.tail cs.tail
    | some msg =>
      cases msg with
      | stopMsg => rfl
      | frames fb =>
        cases hc : cs.headD none with
        | none => simpa [inFlightLegal] using ih false ps.tail cs.tail
        | some req => simpa [inFlightLegal] using ih true ps.tail cs.tail

theorem b64Val_b64Char : ∀ n < 64, b64Val (b64Char n) = some n := by decide

theorem b64Char_ne_pad : ∀ n < 64, ¬(b64Char n = '=') := by decide

theorem b64_roundtrip (bs : List Nat) (hb : ∀ b ∈ bs, b < 256) :
    b64DecodeChars (b64EncodeBytes bs) = some bs := by
  induction bs using b64EncodeBytes.induct with
  | case1 a b c rest ih =>
    have ha : a < 256 := hb a (by simp)
    have hbb : b < 256 := hb b (by simp)
    have hc : c < 256 := hb c (by simp)
    have h1 : b64Val (b64Char (a / 4)) = some (a / 4) := b64Val_b64Char _ (by omega)
    have h2 : b64Val (b64Char (a % 4 * 16 + b / 16)) = some (a % 4 * 16 + b / 16) :=
      b64Val_b64Char _ (by omega)
    have h3 : b64Val (b64Char (b % 16 * 4 + c / 64)) = some (b % 16 * 4 + c / 64) :=
      b64Val_b64Char _ (by omega)
    have h4 : b64Val (b64Char (c % 64)) = some (c % 64) := b64Val_b64Char _ (by omega)
    have hn3 : ¬(b64Char (b % 16 * 4 + c / 64) = '=') := b64Char_ne_pad _ (by omega)
    have hn4 : ¬(b64Char (c % 64) = '=') := b64Char_ne_pad _ (by omega)
    have hrest := ih (fun y hy => hb y (by simp [hy]))
    simp only [b64EncodeBytes, b64DecodeChars, h1, h2, h3, h4, if_neg hn3, if_neg hn4, hrest,
      Option.map_some]
    have e1 : a / 4 * 4 + (a % 4 * 16 + b / 16) / 16 = a := by omega
    have e2 : (a % 4 * 16 + b / 16) % 16 * 16 + (b % 16 * 4 + c / 64) / 4 = b := by omega
    have e3 : (b % 16 * 4 + c / 64) % 4 * 64 + c % 64 = c := by omega
    rw [e1, e2, e3]
    rfl
  | case2 a b =>
    have ha : a < 256 := hb a (by simp)
    have hbb : b < 256 := hb b (by simp)
    have h1 : b64Val (b64Char (a / 4)) = some (a / 4) := b64Val_b64Char _ (by omega)
    have h2 : b64Val (b64Char (a % 4 * 16 + b / 16)) = some (a % 4 * 16 + b / 16) :=
      b64Val_b64Char _ (by omega)
    have h3 : b64Val (b64Char (b % 16 * 4)) = some (b % 16 * 4) :=
      b64Val_b64Char _ (by omega)
    have hn3 : ¬(b64Char (b % 16 * 4) = '=') := b64Char_ne_pad _ (by omega)
    simp only [b64EncodeBytes, b64DecodeChars, h1, h2, h3, if_neg hn3, if_pos rfl]
    have e1 : a / 4 * 4 + (a % 4 * 16 + b / 16) / 16 = a := by omega
    simp [e1]
    omega
  | case3 a =>
    have ha : a < 256 := hb a (by simp)
    have h1 : b64Val (b64Char (a / 4)) = some (a / 4) := b64Val_b64Char _ (by omega)
    have h2 : b64Val (b64Char (a % 4 * 16)) = some (a % 4 * 16) :=
      b64Val_b64Char _ (by omega)
    simp only [b64EncodeBytes, b64DecodeChars, h1, h2, if_pos rfl]
    simp
    omega
  | case4 => rfl

theorem chunksUpTo_length (f : Nat → List Nat) (hf : ∀ x, (f x).length = 4) (n : Nat) :
    (chunksUpTo f n).length = 4 * n := by
  induction n with
  | zero => rfl
  | succ n ih => simp [chunksUpTo, ih, hf]; omega

theorem chunksUpTo_getD (f : Nat → List Nat) (hf : ∀ x, (f x).length = 4) (n p k : Nat)
    (d : Nat) (hp : p < n) (hk : k < 4) :
    (chunksUpTo f n).getD (4 * p + k) d = (f p).getD k d := by
  induction n with
  | zero => omega
  | succ n ih =>
    simp only [chunksUpTo]
    rcases Nat.lt_or_ge p n with h | h
    · rw [List.getD_append _ _ _ _ (by rw [chunksUpTo_length f hf]; omega)]
      exact ih h
    · have hpn : p = n := by omega
      subst hpn
      rw [List.getD_append_right _ _ _ _ (by rw [chunksUpTo_length f hf]; omega)]
      congr 1
      rw [chunksUpTo_length f hf]
      omega

theorem rgbaChunk_length (raw : List Nat) (p : Nat) : (rgbaChunk raw p).length = 4 := rfl

/-- The B,G,R,A → R,G,B,A channel permutation `[2, 1, 0, 3]` as an index
map on the four channels of one pixel. -/
def bgraSwizzle (k : Nat) : Nat := [2, 1, 0, 3].getD k 0

theorem rgba_of_getD (raw : List Nat) (h w i j k : Nat) (hi : i < h) (hj : j < w)
    (hk : k < 4) :
    (rgba_of raw h w).getD ((i * w + j) * 4 + k) 0 =
      raw.getD (4 * (i * w + j) + bgraSwizzle k) 0 := by
  have hp : i * w + j < h * w := by
    have h1 : i + 1 ≤ h := hi
    calc i * w + j < i * w + w := by omega
    _ = (i + 1) * w := by ring
    _ ≤ h * w := Nat.mul_le_mul_right w h1
  have := chunksUpTo_getD (rgbaChunk raw) (rgbaChunk_length raw) (h * w) (i * w + j) k 0 hp hk
  rw [rgba_of, show (i * w + j) * 4 + k = 4 * (i * w + j) + k by ring, this]
  rcases k with _ | _ | _ | _ | k
  · simp [rgbaChunk, bgraSwizzle]
  · simp [rgbaChunk, bgraSwizzle]
  · simp [rgbaChunk, bgraSwizzle]
  · simp [rgbaChunk, bgraSwizzle]
  · omega

/-- A single-camera frame bundle with format `"png"`, as assembled by
`handle_cam_req` for one camera. -/
def pngBundle (cid : String) (raw : List Nat) (ts : Int) (h w : Nat) :
    List (String × CamVal) :=
  [("format", CamVal.fmt (FormatSpec.name "png")), (cid, CamVal.entry ⟨raw, ts, h, w⟩)]

/-- C7: for a raw `h*w*4`-byte framebuffer in B,G,R,A channel order, the
encoder reorders channels to R,G,B,A (the swizzle `[2,1,0,3]`) before codec
encoding, and for the lossless format `"png"` the produced `b64_data`
round-trips: base64-decoding then image-decoding yields exactly the
original pixel grid in R,G,B,A channel order.  The codec is quantified and
assumed byte-valued and lossless at this image, which is what "png is a
lossless format" supplies. -/
theorem png_encode_roundtrip (codec : ImgCodec) (cid : String) (raw : List Nat) (ts : Int)
    (h w : Nat) (hcid : cid ≠ "format")
    (hbytes : ∀ b ∈ codec.enc "png" h w (rgba_of raw h w), b < 256)
    (hloss : codec.dec "png" h w (codec.enc "png" h w (rgba_of raw h w)) =
      some (rgba_of raw h w)) :
    ∃ entry : ResEntry,
      (handle_cam_send codec (pngBundle cid raw ts h w)).lookup cid = some entry ∧
      entry.format = FormatSpec.name "png" ∧
      entry.timestamp = ts ∧
      (b64DecodeChars entry.b64_data.data).bind (codec.dec "png" h w) =
        some (rgba_of raw h w) ∧
      (∀ i j k, i < h → j < w → k < 4 →
        (rgba_of raw h w).getD ((i * w + j) * 4 + k) 0 =
          raw.getD (4 * (i * w + j) + bgraSwizzle k) 0) := by
  refine ⟨⟨ts, FormatSpec.name "png",
    String.mk (b64EncodeBytes (codec.enc "png" h w (rgba_of raw h w)))⟩, ?_, rfl, rfl, ?_, ?_⟩
  · have hres : handle_cam_send codec (pngBundle cid raw ts h w) =
        [(cid, ⟨ts, FormatSpec.name "png",
          String.mk (b64EncodeBytes (codec.enc "png" h w (rgba_of raw h w)))⟩)] := by
      simp [handle_cam_send, pngBundle, camSendEntries, hcid, formatNameOf]
    rw [hres]
    simp [List.lookup]
  · show (b64DecodeChars (b64EncodeBytes (codec.enc "png" h w (rgba_of raw h w)))).bind
      (codec.dec "png" h w) = some (rgba_of raw h w)
    rw [b64_roundtrip _ hbytes]
    simpa using hloss
  · intro i j k hi hj hk
    exact rgba_of_getD raw h w i j k hi hj hk

/-- An identity codec: a concrete byte-preserving, lossless `ImgCodec`
instance used to witness the round-trip theorem. -/
def idCodec : ImgCodec := ⟨fun _ _ _ px => px, fun _ _ _ bs => some bs⟩

theorem png_encode_roundtrip_witness :
    ((handle_cam_send idCodec (pngBundle "LeftNav" [0, 1, 2, 3, 4, 5, 6, 7] 5 1 2)).lookup
        "LeftNav").isSome = true ∧
    (rgba_of [0, 1, 2, 3, 4, 5, 6, 7] 1 2).getD ((0 * 2 + 1) * 4 + 0) 0 =
      [0, 1, 2, 3, 4, 5, 6, 7].getD (4 * (0 * 2 + 1) + bgraSwizzle 0) 0 := by
  obtain ⟨entry, h1, h2, h3, h4, h5⟩ :=
    png_encode_roundtrip idCodec "LeftNav" [0, 1, 2, 3, 4, 5, 6, 7] 5 1 2
      (by decide) (by decide) rfl
  refine ⟨?_, h5 0 1 0 (by decide) (by decide) (by decide)⟩
  rw [h1]
  rfl

theorem camSendEntries_b64_eq (codec : ImgCodec) (f1 f2 : FormatSpec)
    (hf : formatNameOf f1 = formatNameOf f2) (l : List (String × CamVal)) :
    (camSendEntries codec f1 l).map (fun p => (p.1, p.2.b64_data)) =
      (camSendEntries codec f2 l).map (fun p => (p.1, p.2.b64_data)) := by
  induction l with
  | nil => rfl
  | cons p rest ih =>
    obtain ⟨key, val⟩ := p
    by_cases hk : key = "format"
    · simp only [camSendEntries, if_pos hk]
      exact ih
    · cases val with
      | fmt f => simp only [camSendEntries, if_neg hk]; exact ih
      | entry e =>
        simp only [camSendEntries, if_neg hk, List.map_cons, hf]
        rw [ih]

theorem camSendEntries_format_echo (codec : ImgCodec) (f : FormatSpec)
    (l : List (String × CamVal)) :
    ∀ p ∈ camSendEntries codec f l, p.2.format = f := by
  induction l with
  | nil => intro p hp; simp [camSendEntries] at hp
  | cons q rest ih =>
    obtain ⟨key, val⟩ := q
    intro p hp
    by_cases hk : key = "format"
    · simp only [camSendEntries, if_pos hk] at hp
      exact ih p hp
    · cases val with
      | fmt f' =>
        simp only [camSendEntries, if_neg hk] at hp
        exact ih p hp
      | entry e =>
        simp only [camSendEntries, if_neg hk] at hp
        rcases List.mem_cons.mp hp with hhd | htl
        · rw [hhd]
        · exact ih p htl

/-- C8: the requested format is accepted both as a bare name string and as
a one-entry mapping whose sole key is that name; the mapping form yields
exactly the same encoded (base64) image bytes for every camera as the bare
name would, and each per-camera reply entry echoes the original format
spec verbatim in whichever of the two forms it was given. -/
theorem format_spec_two_forms (codec : ImgCodec) (k v : String)
    (entries : List (String × CamVal)) :
    ((handle_cam_send codec
        (("format", CamVal.fmt (FormatSpec.mapping [(k, v)])) :: entries)).map
          (fun p => (p.1, p.2.b64_data)) =
      (handle_cam_send codec
        (("format", CamVal.fmt (FormatSpec.name k)) :: entries)).map
          (fun p => (p.1, p.2.b64_data))) ∧
    (∀ p ∈ handle_cam_send codec
        (("format", CamVal.fmt (FormatSpec.mapping [(k, v)])) :: entries),
      p.2.format = FormatSpec.mapping [(k, v)]) ∧
    (∀ p ∈ handle_cam_send codec
        (("format", CamVal.fmt (FormatSpec.name k)) :: entries),
      p.2.format = FormatSpec.name k) := by
  have h1 : ∀ F : FormatSpec, handle_cam_send codec (("format", CamVal.fmt F) :: entries) =
      camSendEntries codec F (("format", CamVal.fmt F) :: entries) := by
    intro F
    simp [handle_cam_send, List.lookup]
  have h2 : ∀ F : FormatSpec,
      camSendEntries codec F (("format", CamVal.fmt F) :: entries) =
        camSendEntries codec F entries := by
    intro F
    simp [camSendEntries]
  refine ⟨?_, ?_, ?_⟩
  · rw [h1, h1, h2, h2]
    exact camSendEntries_b64_eq codec (FormatSpec.mapping [(k, v)]) (FormatSpec.name k)
      rfl entries
  · intro p hp
    rw [h1, h2] at hp
    exact camSendEntries_format_echo codec _ entries p hp
  · intro p hp
    rw [h1, h2] at hp
    exact camSendEntries_format_echo codec _ entries p hp

theorem format_spec_two_forms_witness :
    ((handle_cam_send idCodec
        (("format", CamVal.fmt (FormatSpec.mapping [("png", "opts")])) ::
          [("LeftNav", CamVal.entry ⟨[9, 9, 9, 9], 1, 1, 1⟩)])).map
          (fun p => (p.1, p.2.b64_data)) =
      (handle_cam_send idCodec
        (("format", CamVal.fmt (FormatSpec.name "png")) ::
          [("LeftNav", CamVal.entry ⟨[9, 9, 9, 9], 1, 1, 1⟩)])).map
          (fun p => (p.1, p.2.b64_data))) ∧
    ((handle_cam_send idCodec
        (("format", CamVal.fmt (FormatSpec.mapping [("png", "opts")])) ::
          [("LeftNav", CamVal.entry ⟨[9, 9, 9, 9], 1, 1, 1⟩)])).getD 0
        ("", ⟨0, FormatSpec.name "", ""⟩)).2.format = FormatSpec.mapping [("png", "opts")] ∧
    ((handle_cam_send idCodec
        (("format", CamVal.fmt (FormatSpec.name "png")) ::
          [("LeftNav", CamVal.entry ⟨[9, 9, 9, 9], 1, 1, 1⟩)])).getD 0
        ("", ⟨0, FormatSpec.name "", ""⟩)).2.format = FormatSpec.name "png" := by
  obtain ⟨h1, h2, h3⟩ :=
    format_spec_two_forms idCodec "png" "opts"
      [("LeftNav", CamVal.entry ⟨[9, 9, 9, 9], 1, 1, 1⟩)]
  exact ⟨h1, h2 _ (by decide), h3 _ (by decide)⟩

theorem mem_keysOf_dictInsert {α : Type} (l : List (String × α)) (k : String) (v : α)
    (x : String) : x ∈ keysOf (dictInsert k v l) ↔ x = k ∨ x ∈ keysOf l := by
  induction l with
  | nil => simp [dictInsert, keysOf]
  | cons p rest ih =>
    obtain ⟨k', v'⟩ := p
    by_cases hk : k' = k
    · subst hk
      simp [dictInsert, keysOf]
    · simp only [dictInsert, if_neg hk, keysOf, List.map_cons, List.mem_cons]
      rw [show (List.map Prod.fst (dictInsert k v rest)) = keysOf (dictInsert k v rest) from rfl,
        ih]
      simp [keysOf]
      tauto

theorem nodup_keysOf_dictInsert {α : Type} (l : List (String × α)) (k : String) (v : α)
    (h : (keysOf l).Nodup) : (keysOf (dictInsert k v l)).Nodup := by
  induction l with
  | nil => simp [dictInsert, keysOf]
  | cons p rest ih =>
    obtain ⟨k', v'⟩ := p
    have h' : k' ∉ keysOf rest ∧ (keysOf rest).Nodup := by
      simpa [keysOf, List.nodup_cons] using h
    by_cases hk : k' = k
    · subst hk
      simpa [dictInsert, keysOf, List.nodup_cons] using h'
    · simp only [dictInsert, if_neg hk, keysOf, List.map_cons, List.nodup_cons]
      constructor
      · rw [show (List.map Prod.fst (dictInsert k v rest)) = keysOf (dictInsert k v rest)
          from rfl, mem_keysOf_dictInsert]
        rintro (rfl | hmem)
        · exact hk rfl
        · exact h'.1 hmem
      · exact ih h'.2

theorem mem_dictInsert {α : Type} (l : List (String × α)) (k : String) (v : α)
    (p : String × α) (hp : p ∈ dictInsert k v l) : p = (k, v) ∨ p ∈ l := by
  induction l with
  | nil => simpa [dictInsert] using hp
  | cons q rest ih =>
    obtain ⟨k', v'⟩ := q
    by_cases hk : k' = k
    · subst hk
      rcases List.mem_cons.mp (by simpa [dictInsert] using hp) with h | h
      · exact Or.inl h
      · exact Or.inr (List.mem_cons_of_mem _ h)
    · rw [dictInsert, if_neg hk] at hp
      rcases List.mem_cons.mp hp with h | h
      · exact Or.inr (h ▸ List.mem_cons_self _ _)
      · rcases ih h with h' | h'
        · exact Or.inl h'
        · exact Or.inr (List.mem_cons_of_mem _ h')

theorem lookup_some_mem_keysOf {α : Type} : ∀ (l : List (String × α)) (k : String) (v : α),
    l.lookup k = some v → k ∈ keysOf l := by
  intro l
  induction l with
  | nil => intro k v h; simp [List.lookup] at h
  | cons p rest ih =>
    intro k v h
    obtain ⟨k', v'⟩ := p
    by_cases hk : k = k'
    · simp [keysOf, hk]
    · rw [List.lookup] at h
      rw [show (k == k') = false by simpa using hk] at h
      exact List.mem_cons_of_mem _ (ih k v h)

theorem camReqInsert_spec : ∀ (cl : List String) (cams : List (String × CamDev)) (now : Int)
    (acc out : List (String × CamVal)),
    camReqInsert cams now acc cl = some out →
    (keysOf acc).Nodup →
    (∀ p ∈ acc, p.1 = "format" ∨ ∃ e, p.2 = CamVal.entry e) →
    ((keysOf out).Nodup ∧
     (∀ p ∈ out, p.1 = "format" ∨ ∃ e, p.2 = CamVal.entry e) ∧
     (∀ x ∈ keysOf out, x ∈ keysOf acc ∨ x ∈ cl) ∧
     (∀ x ∈ keysOf acc, x ∈ keysOf out) ∧
     (∀ c ∈ cl, c ∈ keysOf out ∧ c ∈ keysOf cams)) := by
  intro cl
  induction cl with
  | nil =>
    intro cams now acc out h hnd hvals
    rw [camReqInsert] at h
    cases h
    exact ⟨hnd, hvals, fun x hx => Or.inl hx, fun x hx => hx, by simp⟩
  | cons cid rest ih =>
    intro cams now acc out h hnd hvals
    rw [camReqInsert] at h
    cases hl : cams.lookup cid with
    | none => rw [hl] at h; simp at h
    | some dev =>
      rw [hl] at h
      have hnd' : (keysOf (dictInsert cid
          (CamVal.entry ⟨dev.image, now, dev.height, dev.width⟩) acc)).Nodup :=
        nodup_keysOf_dictInsert _ _ _ hnd
      have hvals' : ∀ p ∈ dictInsert cid
          (CamVal.entry ⟨dev.image, now, dev.height, dev.width⟩) acc,
          p.1 = "format" ∨ ∃ e, p.2 = CamVal.entry e := by
        intro p hp
        rcases mem_dictInsert _ _ _ p hp with hnew | hold
        · exact Or.inr ⟨_, by rw [hnew]⟩
        · exact hvals p hold
      obtain ⟨o1, o2, o3, o4, o5⟩ := ih cams now _ out h hnd' hvals'
      refine ⟨o1, o2, ?_, ?_, ?_⟩
      · intro x hx
        rcases o3 x hx with hacc' | hrest
        · rcases (mem_keysOf_dictInsert _ _ _ x).mp hacc' with hck | hacc
          · exact Or.inr (hck ▸ List.mem_cons_self _ _)
          · exact Or.inl hacc
        · exact Or.inr (List.mem_cons_of_mem _ hrest)
      · intro x hx
        exact o4 x ((mem_keysOf_dictInsert _ _ _ x).mpr (Or.inr hx))
      · intro c hc
        rcases List.mem_cons.mp hc with hcc | hcr
        · subst hcc
          refine ⟨o4 c ((mem_keysOf_dictInsert _ _ _ c).mpr (Or.inl rfl)), ?_⟩
          exact lookup_some_mem_keysOf cams c dev hl
        · exact o5 c hcr

theorem camSendEntries_keys_sublist (codec : ImgCodec) (fmt : FormatSpec) :
    ∀ (l : List (String × CamVal)),
      (keysOf (camSendEntries codec fmt l)).Sublist (keysOf l) := by
  intro l
  induction l with
  | nil => simp [camSendEntries, keysOf]
  | cons p rest ih =>
    obtain ⟨k, v⟩ := p
    by_cases hk : k = "format"
    · simp only [camSendEntries, if_pos hk, keysOf, List.map_cons]
      exact List.Sublist.cons _ ih
    · cases v with
      | fmt f =>
        simp only [camSendEntries, if_neg hk, keysOf, List.map_cons]
        exact List.Sublist.cons _ ih
      | entry e =>
        simp only [camSendEntries, if_neg hk, keysOf, List.map_cons]
        exact List.Sublist.cons₂ _ ih

theorem format_notin_camSendEntries_keys (codec : ImgCodec) (fmt : FormatSpec)
    (l : List (String × CamVal)) (x : String) (hx : x ∈ keysOf (camSendEntries codec fmt l)) :
    (x = "format") = False := by
  induction l with
  | nil => simp [camSendEntries, keysOf] at hx
  | cons p rest ih =>
    obtain ⟨k, v⟩ := p
    by_cases hk : k = "format"
    · rw [show camSendEntries codec fmt ((k, v) :: rest) = camSendEntries codec fmt rest by
        simp only [camSendEntries, if_pos hk]] at hx
      exact ih hx
    · cases v with
      | fmt f =>
        rw [show camSendEntries codec fmt ((k, CamVal.fmt f) :: rest) =
            camSendEntries codec fmt rest by
          simp only [camSendEntries, if_neg hk]] at hx
        exact ih hx
      | entry e =>
        simp only [camSendEntries, if_neg hk, keysOf, List.map_cons, List.mem_cons] at hx
        rcases hx with hxk | hxr
        · simp only [eq_iff_iff, iff_false]
          intro hxf
          exact hk (by rw [← hxk]; exact hxf)
        · exact ih hxr

theorem entry_mem_camSendEntries_keys (codec : ImgCodec) (fmt : FormatSpec) :
    ∀ (l : List (String × CamVal)) (c : String) (e : CamEntry),
      (c, CamVal.entry e) ∈ l → (c = "format") = False →
      c ∈ keysOf (camSendEntries codec fmt l) := by
  intro l
  induction l with
  | nil => intro c e hmem _; simp at hmem
  | cons p rest ih =>
    intro c e hmem hcf
    obtain ⟨k, v⟩ := p
    rcases List.mem_cons.mp hmem with hhd | htl
    · obtain ⟨hk, hv⟩ := Prod.mk.injEq .. ▸ hhd
      have hkf : ¬(k = "format") := by
        intro hf
        exact hcf ▸ (hk.trans hf)
      rw [← hv]
      simp only [camSendEntries, if_neg hkf, keysOf, List.map_cons, List.mem_cons]
      exact Or.inl hk
    · by_cases hk : k = "format"
      · rw [show camSendEntries codec fmt ((k, v) :: rest) = camSendEntries codec fmt rest by
          simp only [camSendEntries, if_pos hk]]
        exact ih c e htl hcf
      · cases v with
        | fmt f =>
          rw [show camSendEntries codec fmt ((k, CamVal.fmt f) :: rest) =
              camSendEntries codec fmt rest by
            simp only [camSendEntries, if_neg hk]]
          exact ih c e htl hcf
        | entry e' =>
          simp only [camSendEntries, if_neg hk, keysOf, List.map_cons, List.mem_cons]
          exact Or.inr (ih c e htl hcf)

/-- C10: for every frame bundle assembled by `handle_cam_req`, the
top-level keys of the client reply built by `handle_cam_send` are exactly
the requested camera ids — the bundle's `'format'` entry is skipped during
iteration and never appears as a top-level reply key, and every requested
camera id appears exactly once. -/
theorem cam_reply_keys_exact (codec : ImgCodec) (l r d : CamDev) (now : Int) (req : CamReq)
    (bundle : List (String × CamVal))
    (hb : handle_cam_req (init_cameras l r d) now req = some bundle) :
    (keysOf (handle_cam_send codec bundle)).count "format" = 0 ∧
    (∀ c ∈ req.cameras, (keysOf (handle_cam_send codec bundle)).count c = 1) ∧
    (∀ x ∈ keysOf (handle_cam_send codec bundle), x ∈ req.cameras) := by
  rw [handle_cam_req] at hb
  obtain ⟨o1, o2, o3, o4, o5⟩ :=
    camReqInsert_spec req.cameras (init_cameras l r d) now _ bundle hb
      (by simp [dictInsert, keysOf]) (by simp [dictInsert])
  obtain ⟨F, hF⟩ : ∃ F, handle_cam_send codec bundle = camSendEntries codec F bundle :=
    ⟨_, rfl⟩
  rw [hF]
  refine ⟨?_, ?_, ?_⟩
  · apply List.count_eq_zero.mpr
    intro hmem
    have h := format_notin_camSendEntries_keys codec F bundle "format" hmem
    simp at h
  · intro c hc
    obtain ⟨hcKeys, hcCams⟩ := o5 c hc
    have hcne : (c = "format") = False := by
      simp only [eq_iff_iff, iff_false]
      intro hceq
      subst hceq
      exact absurd
        (show ("format" : String) ∈ ["LeftNav", "RightNav", "LeftDepth"] from hcCams)
        (by decide)
    obtain ⟨p, hp, hpc⟩ := List.mem_map.mp hcKeys
    rcases o2 p hp with hfmt | ⟨e, he⟩
    · exact absurd (hpc.symm.trans hfmt) (by simp [hcne])
    · have hpe : (c, CamVal.entry e) ∈ bundle := by
        have hpeq : p = (c, CamVal.entry e) := by
          obtain ⟨p1, p2⟩ := p
          simp only at hpc he
          rw [hpc, he]
        rw [← hpeq]
        exact hp
      have hcmem' : c ∈ keysOf (camSendEntries codec F bundle) :=
        entry_mem_camSendEntries_keys codec F bundle c e hpe hcne
      have hnodup' : (keysOf (camSendEntries codec F bundle)).Nodup :=
        (camSendEntries_keys_sublist codec F bundle).nodup o1
      exact List.count_eq_one_of_mem hnodup' hcmem'
  · intro x hx
    have hxb : x ∈ keysOf bundle :=
      (camSendEntries_keys_sublist codec F bundle).subset hx
    have hxne := format_notin_camSendEntries_keys codec F bundle x hx
    rcases o3 x hxb with hacc | hcam
    · have hxf : x = "format" := by simpa [dictInsert, keysOf] using hacc
      exact absurd hxf (by simp [hxne])
    · exact hcam

theorem cam_reply_keys_exact_witness :
    (keysOf (handle_cam_send idCodec
      [("format", CamVal.fmt (FormatSpec.name "png")),
       ("LeftNav", CamVal.entry ⟨[0, 0, 0, 0], 3, 1, 1⟩)])).count "format" = 0 ∧
    (keysOf (handle_cam_send idCodec
      [("format", CamVal.fmt (FormatSpec.name "png")),
       ("LeftNav", CamVal.entry ⟨[0, 0, 0, 0], 3, 1, 1⟩)])).count "LeftNav" = 1 := by
  obtain ⟨h1, h2, h3⟩ :=
    cam_reply_keys_exact idCodec ⟨[0, 0, 0, 0], 1, 1⟩ ⟨[], 0, 0⟩ ⟨[], 0, 0⟩ 3
      ⟨["LeftNav"], FormatSpec.name "png"⟩
      [("format", CamVal.fmt (FormatSpec.name "png")),
       ("LeftNav", CamVal.entry ⟨[0, 0, 0, 0], 3, 1, 1⟩)] (by decide)
  exact ⟨h1, h2 "LeftNav" (by decide)⟩
